import Mathlib

/-!
Shallow embedding of the provably-fair verification core of the
rollhub-dice MCP server (`src/index.ts`): hex decoding as performed by
Node's `Buffer.from(s, 'hex')`, the outcome derivation `computeRoll`, the
commitment digest `hashServerSeed`, the proof verifier `verifyBetProof`,
and the credential resolver `resolveKey`.

Numbers produced by the derivation are modelled as exact rationals;
byte strings as `List Nat` with values below 256.  The two cryptographic
primitives the code obtains from `node:crypto` — the 48-byte SHA3-384
digest and the AES-256-CTR keystream — are external library code, so the
definitions are parametrised over them: `sha : List Nat → List Nat`
stands for the digest of the concatenated `update` calls of
`createHash('sha3-384')`, and `cipher : key → iv → plaintext →
ciphertext` for `createCipheriv('aes-256-ctr', key, iv).update(pt)`.
Every theorem below holds for all choices of these primitives (in
particular for the real ones); concrete stand-in instances are provided
to evaluate the development on closed inputs.
-/

/-- Value of one hex-digit character, `none` when the character is not a
hex digit (mirrors the per-nibble table of Node's hex decoder). -/
def hexVal (c : Char) : Option Nat :=
  if 48 ≤ c.toNat ∧ c.toNat ≤ 57 then some (c.toNat - 48)
  else if 97 ≤ c.toNat ∧ c.toNat ≤ 102 then some (c.toNat - 87)
  else if 65 ≤ c.toNat ∧ c.toNat ≤ 70 then some (c.toNat - 55)
  else none

/-- `Buffer.from(s, 'hex')`: decode byte pairs left to right, stopping at
the first pair that is not two hex digits; a trailing lone character is
dropped.  Never fails. -/
def hexPairs : List Char → List Nat
  | c1 :: c2 :: rest =>
    match hexVal c1, hexVal c2 with
    | some h, some l => (16 * h + l) :: hexPairs rest
    | _, _ => []
  | _ => []

def bufferFromHex (s : String) : List Nat := hexPairs s.data

/-- Strict hex decoding: succeeds exactly when the whole string is a
well-formed sequence of hex-digit pairs.  This is the notion of "valid
hex-encoded data" used by the specification. -/
def decodeHexStrict : List Char → Option (List Nat)
  | [] => some []
  | [_] => none
  | c1 :: c2 :: rest =>
    match hexVal c1, hexVal c2, decodeHexStrict rest with
    | some h, some l, some bs => some ((16 * h + l) :: bs)
    | _, _, _ => none

/-- Lowercase hex digit of a nibble. -/
def hexDigit (n : Nat) : Char :=
  match n with
  | 0 => '0' | 1 => '1' | 2 => '2' | 3 => '3' | 4 => '4'
  | 5 => '5' | 6 => '6' | 7 => '7' | 8 => '8' | 9 => '9'
  | 10 => 'a' | 11 => 'b' | 12 => 'c' | 13 => 'd' | 14 => 'e'
  | 15 => 'f' | _ => '0'

/-- `buf.digest('hex')`: lowercase hex rendering of a byte list. -/
def bytesToHex (bs : List Nat) : String :=
  ⟨bs.foldr (fun b acc => hexDigit (b / 16) :: hexDigit (b % 16) :: acc) []⟩

/-- `Buffer.alloc(8)` followed by `writeBigUInt64LE`: the eight
little-endian bytes of a 64-bit value. -/
def nonceLE (n : Nat) : List Nat :=
  [n % 256, n / 256 % 256, n / 256 ^ 2 % 256, n / 256 ^ 3 % 256,
   n / 256 ^ 4 % 256, n / 256 ^ 5 % 256, n / 256 ^ 6 % 256, n / 256 ^ 7 % 256]

/-- `buf.readUInt32LE(i)`. -/
def readUInt32LE (b : List Nat) (i : Nat) : Nat :=
  b.getD i 0 + b.getD (i + 1) 0 * 256 + b.getD (i + 2) 0 * 65536 +
    b.getD (i + 3) 0 * 16777216

/-- `parseFloat(x.toFixed(6))`: round to six decimal digits.  On the
positive values produced here `toFixed` rounds half up, i.e. the result
is `⌊x·10⁶ + 1/2⌋ / 10⁶`. -/
def roundTo6 (q : ℚ) : ℚ := (round (q * 1000000) : ℤ) / 1000000

/-- Error taxonomy of the specification (§7).  `decodeError` is listed
for completeness; the embedded code never produces it. -/
inductive VerifyError where
  | invalidNonce
  | decodeError
  | missingCredential
deriving DecidableEq

/-- The nonce validation the source performs: `BigInt(nonce)` rejects
non-integral numbers, `writeBigUInt64LE` rejects values outside
`[0, 2^64 - 1]`. -/
def nonceOk (q : ℚ) : Prop := q.den = 1 ∧ 0 ≤ q ∧ q < 18446744073709551616

instance (q : ℚ) : Decidable (nonceOk q) := by unfold nonceOk; infer_instance

/-- The pure body of `computeRoll` once the nonce has been validated:
hash the concatenation, split the digest into key and IV, produce the
keystream from a zero block, fold the four little-endian words together
with XOR (the `for` loop with accumulator `xor = 0`), and normalise. -/
def rollCore (sha : List Nat → List Nat) (cipher : List Nat → List Nat → List Nat → List Nat)
    (serverBytes clientBytes : List Nat) (n : Nat) : ℚ :=
  let digest := sha (serverBytes ++ clientBytes ++ nonceLE n)
  let key := digest.take 32
  let iv := (digest.drop 32).take 16
  let ct := cipher key iv (List.replicate 16 0)
  let x := [0, 4, 8, 12].foldl (fun acc i => acc ^^^ readUInt32LE ct i) 0
  1 / 2 + (x : ℚ) / 4294967295

/-- `computeRoll(serverSeedHex, clientSeedHex, nonce)` from
`src/index.ts`.  Hex decoding cannot fail, so validating the nonce
before decoding is unobservable. -/
def computeRoll (sha : List Nat → List Nat) (cipher : List Nat → List Nat → List Nat → List Nat)
    (serverSeedHex clientSeedHex : String) (nonce : ℚ) : Except VerifyError ℚ :=
  if nonceOk nonce then
    .ok (rollCore sha cipher (bufferFromHex serverSeedHex) (bufferFromHex clientSeedHex)
      nonce.num.toNat)
  else .error .invalidNonce

/-- `hashServerSeed`: digest of the decoded seed, rendered as lowercase
hex text. -/
def hashServerSeed (sha : List Nat → List Nat) (serverSeedHex : String) : String :=
  bytesToHex (sha (bufferFromHex serverSeedHex))

structure BetProof where
  server_seed : String
  server_seed_hash : String
  client_seed : String
  nonce : ℚ
  roll : ℚ

structure VerifyResult where
  verified : Bool
  hash_verified : Bool
  roll_verified : Bool
  roll_reported : ℚ
  roll_recalculated : ℚ
deriving DecidableEq

/-- `verifyBetProof` from `src/index.ts`. -/
def verifyBetProof (sha : List Nat → List Nat)
    (cipher : List Nat → List Nat → List Nat → List Nat) (data : BetProof) :
    Except VerifyError VerifyResult :=
  let computedHash := hashServerSeed sha data.server_seed
  let hashOk := decide (computedHash = data.server_seed_hash)
  match computeRoll sha cipher data.server_seed data.client_seed data.nonce with
  | .error e => .error e
  | .ok roll =>
    let rollRecalc := roundTo6 roll
    let rollReported := roundTo6 data.roll
    let rollOk := decide (rollRecalc = rollReported)
    .ok { verified := hashOk && rollOk
          hash_verified := hashOk
          roll_verified := rollOk
          roll_reported := rollReported
          roll_recalculated := rollRecalc }

/-- `resolveKey(provided?)`: JS `provided || DEFAULT_API_KEY` (the empty
string is falsy), then a throw when the result is still empty.
`defaultKey` stands for `process.env.ROLLHUB_API_KEY || ""`. -/
def resolveKey (provided : Option String) (defaultKey : String) : Except VerifyError String :=
  let key := match provided with
    | some s => if s = "" then defaultKey else s
    | none => defaultKey
  if key = "" then .error .missingCredential else .ok key

/-- The reference outcome derivation exactly as §4.2 of the specification
words it, used to state the refinement claim: strict hex decoding of both
seeds, nonce validation, digest of the concatenation, key/IV split,
keystream from an all-zero 16-byte block, the four little-endian words
combined by XOR into `X`, and `0.5 + X / 4294967295`. -/
def specDerive (sha : List Nat → List Nat) (cipher : List Nat → List Nat → List Nat → List Nat)
    (serverSeedHex clientSeedHex : String) (nonce : ℚ) : Option ℚ :=
  if nonceOk nonce then
    match decodeHexStrict serverSeedHex.data, decodeHexStrict clientSeedHex.data with
    | some sb, some cb =>
      let digest := sha (sb ++ cb ++ nonceLE nonce.num.toNat)
      let key := digest.take 32
      let iv := (digest.drop 32).take 16
      let ks := cipher key iv (List.replicate 16 0)
      let w0 := readUInt32LE ks 0
      let w1 := readUInt32LE ks 4
      let w2 := readUInt32LE ks 8
      let w3 := readUInt32LE ks 12
      some (1 / 2 + ((((w0 ^^^ w1) ^^^ w2) ^^^ w3 : Nat) : ℚ) / 4294967295)
    | _, _ => none
  else none

/-- Toggle the case of a single hex letter, leaving every other character
unchanged. -/
def swapHexCase (c : Char) : Char :=
  match c with
  | 'a' => 'A' | 'b' => 'B' | 'c' => 'C' | 'd' => 'D' | 'e' => 'E' | 'f' => 'F'
  | 'A' => 'a' | 'B' => 'b' | 'C' => 'c' | 'D' => 'd' | 'E' => 'e' | 'F' => 'f'
  | c => c

/-- Concrete stand-in for the abstract SHA3-384 parameter, used only to
instantiate the general theorems on closed inputs: a constant 48-byte
digest `0xab…ab` (its hex text contains letters, so it has a distinct
uppercase form). -/
def sampleHash : List Nat → List Nat := fun _ => List.replicate 48 171

/-- Concrete stand-in for the abstract AES-256-CTR parameter: an all-zero
16-byte keystream. -/
def sampleCipher : List Nat → List Nat → List Nat → List Nat :=
  fun _ _ _ => List.replicate 16 0

/-- Stand-in cipher whose keystream makes the derived outcome land just
above a six-decimal rounding half-boundary (X = 131127499, little-endian
bytes 203, 216, 208, 7). -/
def boundaryCipher : List Nat → List Nat → List Nat → List Nat :=
  fun _ _ _ => 203 :: 216 :: 208 :: 7 :: List.replicate 12 0

/-! ### Basic lemmas about the embedded operations -/

theorem hexVal_swapHexCase (c : Char) : hexVal (swapHexCase c) = hexVal c := by
  unfold swapHexCase
  split
  all_goals rfl

theorem hexPairs_congr : ∀ {l1 l2 : List Char},
    List.Forall₂ (fun a b => hexVal b = hexVal a) l1 l2 → hexPairs l2 = hexPairs l1
  | [], [], .nil => rfl
  | [_], [_], .cons _ .nil => rfl
  | a1 :: a2 :: _, _ :: _ :: _, .cons h1 (.cons h2 t) => by
    have ih := hexPairs_congr t
    simp only [hexPairs, h1, h2]
    rcases hexVal a1 with _ | hh
    · rfl
    · rcases hexVal a2 with _ | ll
      · rfl
      · simp [ih]

theorem bufferFromHex_congr {s t : String}
    (h : List.Forall₂ (fun a b => b = a ∨ b = swapHexCase a) s.data t.data) :
    bufferFromHex t = bufferFromHex s := by
  unfold bufferFromHex
  refine hexPairs_congr (List.Forall₂.imp ?_ h)
  intro a b hab
  rcases hab with rfl | rfl
  · rfl
  · exact hexVal_swapHexCase a

theorem hexPairs_of_strict : ∀ {l : List Char} {bs : List Nat},
    decodeHexStrict l = some bs → hexPairs l = bs
  | [], _, h => by
    simp only [decodeHexStrict, Option.some.injEq] at h
    simp [hexPairs, h]
  | [c], _, h => by simp [decodeHexStrict] at h
  | c1 :: c2 :: rest, bs, h => by
    simp only [decodeHexStrict] at h
    rcases h1 : hexVal c1 with _ | hh
    · rw [h1] at h; exact absurd h (by simp)
    · rcases h2 : hexVal c2 with _ | ll
      · rw [h1, h2] at h; exact absurd h (by simp)
      · rcases h3 : decodeHexStrict rest with _ | tl
        · rw [h1, h2, h3] at h; exact absurd h (by simp)
        · rw [h1, h2, h3] at h
          simp only [Option.some.injEq] at h
          subst h
          simp [hexPairs, h1, h2, hexPairs_of_strict h3]

/-- Decoding stops silently at the first invalid pair: anything after a
non-hex character is dropped, and the valid prefix is what is decoded. -/
theorem hexPairs_append_invalid : ∀ {l : List Char} {bs : List Nat} {d : Char}
    (rest : List Char), decodeHexStrict l = some bs → hexVal d = none →
    hexPairs (l ++ d :: rest) = bs
  | [], _, d, rest, h, hd => by
    simp only [decodeHexStrict, Option.some.injEq] at h
    subst h
    cases rest with
    | nil => simp [hexPairs]
    | cons e tl => simp [hexPairs, hd]
  | [c], _, d, rest, h, _ => by simp [decodeHexStrict] at h
  | c1 :: c2 :: tail, bs, d, rest, h, hd => by
    simp only [decodeHexStrict] at h
    rcases h1 : hexVal c1 with _ | hh
    · rw [h1] at h; exact absurd h (by simp)
    · rcases h2 : hexVal c2 with _ | ll
      · rw [h1, h2] at h; exact absurd h (by simp)
      · rcases h3 : decodeHexStrict tail with _ | tl
        · rw [h1, h2, h3] at h; exact absurd h (by simp)
        · rw [h1, h2, h3] at h
          simp only [Option.some.injEq] at h
          subst h
          simp [hexPairs, h1, h2, hexPairs_append_invalid rest h3 hd]

theorem getD_mem_or_zero (l : List Nat) (i : Nat) : l.getD i 0 ∈ l ∨ l.getD i 0 = 0 := by
  induction l generalizing i with
  | nil => right; rfl
  | cons a t ih =>
    cases i with
    | zero => left; simp
    | succ j =>
      rw [List.getD_cons_succ]
      rcases ih j with h | h
      · left; exact List.mem_cons_of_mem a h
      · right; exact h

theorem readUInt32LE_lt {l : List Nat} (hl : ∀ b ∈ l, b < 256) (i : Nat) :
    readUInt32LE l i < 4294967296 := by
  have hb : ∀ j, l.getD j 0 < 256 := by
    intro j
    rcases getD_mem_or_zero l j with h | h
    · exact hl _ h
    · omega
  have h0 := hb i
  have h1 := hb (i + 1)
  have h2 := hb (i + 2)
  have h3 := hb (i + 3)
  unfold readUInt32LE
  omega

theorem xorFold_lt {l : List Nat} (hl : ∀ b ∈ l, b < 256) :
    [0, 4, 8, 12].foldl (fun acc i => acc ^^^ readUInt32LE l i) 0 < 4294967296 := by
  have h0 := readUInt32LE_lt hl 0
  have h4 := readUInt32LE_lt hl 4
  have h8 := readUInt32LE_lt hl 8
  have h12 := readUInt32LE_lt hl 12
  have hpow : (4294967296 : Nat) = 2 ^ 32 := by norm_num
  rw [hpow] at h0 h4 h8 h12 ⊢
  simp only [List.foldl, Nat.zero_xor]
  exact Nat.xor_lt_two_pow (Nat.xor_lt_two_pow (Nat.xor_lt_two_pow h0 h4) h8) h12

theorem rollCore_range (sha : List Nat → List Nat)
    (cipher : List Nat → List Nat → List Nat → List Nat)
    (hcipher : ∀ k v p, ∀ b ∈ cipher k v p, b < 256)
    (serverBytes clientBytes : List Nat) (n : Nat) :
    1 / 2 ≤ rollCore sha cipher serverBytes clientBytes n ∧
      rollCore sha cipher serverBytes clientBytes n ≤ 3 / 2 := by
  unfold rollCore
  have hx := xorFold_lt (hcipher _ _ _) (l := cipher
    ((sha (serverBytes ++ clientBytes ++ nonceLE n)).take 32)
    (((sha (serverBytes ++ clientBytes ++ nonceLE n)).drop 32).take 16)
    (List.replicate 16 0))
  set x := [0, 4, 8, 12].foldl (fun acc i => acc ^^^ readUInt32LE (cipher
    ((sha (serverBytes ++ clientBytes ++ nonceLE n)).take 32)
    (((sha (serverBytes ++ clientBytes ++ nonceLE n)).drop 32).take 16)
    (List.replicate 16 0)) i) 0 with hxdef
  have hx1 : (x : ℚ) / 4294967295 ≤ 1 := by
    rw [div_le_one (by norm_num)]
    have : (x : ℚ) ≤ 4294967295 := by
      have : x ≤ 4294967295 := by omega
      exact_mod_cast this
    linarith
  have hx0 : (0 : ℚ) ≤ (x : ℚ) / 4294967295 := by positivity
  constructor
  · linarith
  · linarith

theorem computeRoll_eq_ok (sha : List Nat → List Nat)
    (cipher : List Nat → List Nat → List Nat → List Nat)
    (serverSeedHex clientSeedHex : String) {nonce : ℚ} (h : nonceOk nonce) :
    computeRoll sha cipher serverSeedHex clientSeedHex nonce =
      .ok (rollCore sha cipher (bufferFromHex serverSeedHex) (bufferFromHex clientSeedHex)
        nonce.num.toNat) := by
  unfold computeRoll
  rw [if_pos h]

theorem computeRoll_eq_error (sha : List Nat → List Nat)
    (cipher : List Nat → List Nat → List Nat → List Nat)
    (serverSeedHex clientSeedHex : String) {nonce : ℚ} (h : ¬ nonceOk nonce) :
    computeRoll sha cipher serverSeedHex clientSeedHex nonce = .error .invalidNonce := by
  unfold computeRoll
  rw [if_neg h]

theorem verifyBetProof_ok (sha : List Nat → List Nat)
    (cipher : List Nat → List Nat → List Nat → List Nat) (data : BetProof)
    (h : nonceOk data.nonce) :
    verifyBetProof sha cipher data = .ok
      { verified := decide (hashServerSeed sha data.server_seed = data.server_seed_hash) &&
          decide (roundTo6 (rollCore sha cipher (bufferFromHex data.server_seed)
            (bufferFromHex data.client_seed) data.nonce.num.toNat) = roundTo6 data.roll)
        hash_verified := decide (hashServerSeed sha data.server_seed = data.server_seed_hash)
        roll_verified := decide (roundTo6 (rollCore sha cipher (bufferFromHex data.server_seed)
          (bufferFromHex data.client_seed) data.nonce.num.toNat) = roundTo6 data.roll)
        roll_reported := roundTo6 data.roll
        roll_recalculated := roundTo6 (rollCore sha cipher (bufferFromHex data.server_seed)
          (bufferFromHex data.client_seed) data.nonce.num.toNat) } := by
  unfold verifyBetProof
  rw [computeRoll_eq_ok sha cipher _ _ h]

/-- With the all-zero stand-in keystream the four words are all zero, so
the derived outcome is exactly 1/2 for every seed pair and nonce. -/
theorem rollCore_sampleCipher (sha : List Nat → List Nat)
    (serverBytes clientBytes : List Nat) (n : Nat) :
    rollCore sha sampleCipher serverBytes clientBytes n = 1 / 2 := by
  unfold rollCore sampleCipher
  have hr : ∀ i, readUInt32LE (List.replicate 16 0) i = 0 := by
    intro i
    have hz : ∀ j, (List.replicate 16 (0 : Nat)).getD j 0 = 0 := by
      intro j
      rcases getD_mem_or_zero (List.replicate 16 0) j with hmem | hzero
      · exact List.eq_of_mem_replicate hmem
      · exact hzero
    unfold readUInt32LE
    rw [hz, hz, hz, hz]
  simp only [List.foldl, hr, Nat.zero_xor, Nat.xor_self]
  norm_num

theorem roundTo6_add_one (q : ℚ) : roundTo6 (q + 1) = roundTo6 q + 1 := by
  unfold roundTo6
  have h : (q + 1) * 1000000 = q * 1000000 + ((1000000 : ℤ) : ℚ) := by push_cast; ring
  rw [h, round_add_int]
  push_cast
  ring

theorem nonceOk_zero : nonceOk 0 := by decide

theorem roundTo6_ne_add_one (q : ℚ) : roundTo6 (q + 1) ≠ roundTo6 q := by
  rw [roundTo6_add_one]
  intro h
  have := sub_eq_zero.mpr h
  simp at this

/-! ### Claim theorems -/

/-- **C1.** For every pair of seed strings (any hex text), every nonce the
64-bit validation accepts, and every choice of the hash and cipher
primitives whose keystream consists of bytes (as `Buffer` guarantees),
the value `computeRoll` returns lies in the closed interval [0.5, 1.5]. -/
theorem computeRoll_range (sha : List Nat → List Nat)
    (cipher : List Nat → List Nat → List Nat → List Nat)
    (hcipher : ∀ k v p, ∀ b ∈ cipher k v p, b < 256)
    (serverSeedHex clientSeedHex : String) (nonce : ℚ) (r : ℚ)
    (h : computeRoll sha cipher serverSeedHex clientSeedHex nonce = .ok r) :
    1 / 2 ≤ r ∧ r ≤ 3 / 2 := by
  by_cases hn : nonceOk nonce
  · rw [computeRoll_eq_ok sha cipher _ _ hn] at h
    injection h with h
    subst h
    exact rollCore_range sha cipher hcipher _ _ _
  · rw [computeRoll_eq_error sha cipher _ _ hn] at h
    exact absurd h (by simp)

theorem computeRoll_range_witness :
    computeRoll sampleHash sampleCipher "" "" 0 = .ok (1 / 2) ∧
      1 / 2 ≤ (1 / 2 : ℚ) ∧ (1 / 2 : ℚ) ≤ 3 / 2 := by
  have hbytes : ∀ k v p, ∀ b ∈ sampleCipher k v p, b < 256 := by
    intro k v p b hb
    simp [sampleCipher] at hb
    omega
  have heq : computeRoll sampleHash sampleCipher "" "" 0 = .ok (1 / 2) := by
    rw [computeRoll_eq_ok sampleHash sampleCipher _ _ (by decide), rollCore_sampleCipher]
  exact ⟨heq, computeRoll_range sampleHash sampleCipher hbytes "" "" 0 (1 / 2) heq⟩

/-- **C8.** `computeRoll` fails with `invalidNonce` exactly when the nonce
is non-integral, negative, or at least 2^64, and succeeds with an outcome
for every nonce representable as an unsigned 64-bit integer, regardless of
the seed strings. -/
theorem computeRoll_nonce_validation (sha : List Nat → List Nat)
    (cipher : List Nat → List Nat → List Nat → List Nat)
    (s c : String) (q : ℚ) :
    (computeRoll sha cipher s c q = .error .invalidNonce ↔
      q.den ≠ 1 ∨ q < 0 ∨ 18446744073709551616 ≤ q) ∧
    (nonceOk q → ∃ r, computeRoll sha cipher s c q = .ok r) := by
  constructor
  · constructor
    · intro h
      by_cases hn : nonceOk q
      · rw [computeRoll_eq_ok sha cipher _ _ hn] at h
        exact absurd h (by simp)
      · rw [nonceOk, not_and_or, not_and_or, not_le, not_lt] at hn
        exact hn
    · intro h
      apply computeRoll_eq_error
      rintro ⟨h1, h2, h3⟩
      rcases h with h | h | h
      · exact h h1
      · exact absurd h2 (not_le.mpr h)
      · exact absurd h3 (not_lt.mpr h)
  · intro hn
    exact ⟨_, computeRoll_eq_ok sha cipher _ _ hn⟩

theorem computeRoll_nonce_validation_witness :
    computeRoll sampleHash sampleCipher "" "" (-1) = .error .invalidNonce ∧
    computeRoll sampleHash sampleCipher "" "" (1 / 2) = .error .invalidNonce ∧
    computeRoll sampleHash sampleCipher "" "" 18446744073709551616 = .error .invalidNonce ∧
    ∃ r, computeRoll sampleHash sampleCipher "" "" 7 = .ok r :=
  ⟨(computeRoll_nonce_validation sampleHash sampleCipher "" "" (-1)).1.mpr
      (Or.inr (Or.inl (by norm_num))),
   (computeRoll_nonce_validation sampleHash sampleCipher "" "" (1 / 2)).1.mpr
      (Or.inl (by norm_num)),
   (computeRoll_nonce_validation sampleHash sampleCipher "" "" 18446744073709551616).1.mpr
      (Or.inr (Or.inr (by norm_num))),
   (computeRoll_nonce_validation sampleHash sampleCipher "" "" 7).2 (by decide)⟩

/-- **C9 counterexample.** An explicit per-call argument that is present
but empty is not returned: the code treats the empty string as absent
(JS falsiness) and falls back to the configured value instead. -/
theorem resolveKey_empty_explicit_cex :
    resolveKey (some "") "envkey" = .ok "envkey" ∧ "envkey" ≠ "" := by
  exact ⟨rfl, by decide⟩

/-- **C9 (amended).** `resolveKey` returns the explicit argument when it
is present and non-empty, falls back to the configured value when the
explicit argument is absent or empty and the configured value is
non-empty, and fails with `missingCredential` exactly when both are
absent or empty. -/
theorem resolveKey_resolution (provided : Option String) (defaultKey : String) :
    (∀ s, provided = some s → s ≠ "" → resolveKey provided defaultKey = .ok s) ∧
    ((provided = none ∨ provided = some "") → defaultKey ≠ "" →
      resolveKey provided defaultKey = .ok defaultKey) ∧
    (resolveKey provided defaultKey = .error .missingCredential ↔
      ((provided = none ∨ provided = some "") ∧ defaultKey = "")) := by
  rcases provided with _ | s
  · by_cases hd : defaultKey = "" <;> simp [resolveKey, hd]
  · by_cases hs : s = ""
    · subst hs
      by_cases hd : defaultKey = "" <;> simp [resolveKey, hd]
    · simp [resolveKey, hs]

theorem resolveKey_resolution_witness :
    resolveKey (some "k") "" = .ok "k" ∧ resolveKey none "d" = .ok "d" ∧
    resolveKey none "" = .error .missingCredential :=
  ⟨(resolveKey_resolution (some "k") "").1 "k" rfl (by decide),
   (resolveKey_resolution none "d").2.1 (Or.inl rfl) (by decide),
   (resolveKey_resolution none "").2.2.mpr ⟨Or.inl rfl, rfl⟩⟩

/-- A string is never equal to itself with a character appended. -/
theorem string_ne_append_x (s : String) : s ≠ s ++ "x" := by
  intro h
  have hl := congrArg String.length h
  rw [String.length_append] at hl
  have hx : "x".length = 1 := rfl
  omega

/-- **C2.** On every valid input — both seeds strict hex, nonce in the
unsigned 64-bit range — `computeRoll` computes exactly the reference
algorithm of §4.2 (`specDerive`): digest of `server ‖ client ‖ nonce-LE`,
first 32 digest bytes as key and next 16 as IV, keystream from a 16-byte
zero block, the four little-endian 32-bit words XOR-combined into `X`,
result `0.5 + X / 4294967295`.  This holds for every choice of the hash
and cipher primitives, in particular for SHA3-384 and AES-256-CTR. -/
theorem computeRoll_refines_specDerive (sha : List Nat → List Nat)
    (cipher : List Nat → List Nat → List Nat → List Nat)
    (s c : String) (nonce : ℚ) (sb cb : List Nat)
    (hs : decodeHexStrict s.data = some sb) (hc : decodeHexStrict c.data = some cb)
    (hn : nonceOk nonce) :
    ∃ r, computeRoll sha cipher s c nonce = .ok r ∧
      specDerive sha cipher s c nonce = some r := by
  have hbs : bufferFromHex s = sb := hexPairs_of_strict hs
  have hbc : bufferFromHex c = cb := hexPairs_of_strict hc
  refine ⟨rollCore sha cipher (bufferFromHex s) (bufferFromHex c) nonce.num.toNat,
    computeRoll_eq_ok sha cipher _ _ hn, ?_⟩
  unfold specDerive
  rw [if_pos hn, hs, hc]
  simp only [Option.some.injEq]
  unfold rollCore
  rw [hbs, hbc]
  simp only [List.foldl, Nat.zero_xor]

theorem computeRoll_refines_specDerive_witness :
    ∃ r, computeRoll sampleHash sampleCipher "0aFf" "7b" 3 = .ok r ∧
      specDerive sampleHash sampleCipher "0aFf" "7b" 3 = some r :=
  computeRoll_refines_specDerive sampleHash sampleCipher "0aFf" "7b" 3 [10, 255] [123]
    (by decide) (by decide) (by decide)

/-- A bet proof whose commitment hash does not match any digest text. -/
def mismatchProof : BetProof :=
  { server_seed := ""
    server_seed_hash := "nope"
    client_seed := ""
    nonce := 0
    roll := 0 }

/-- **C5.** For every well-formed proof (any hex text, nonce in range)
`verifyBetProof` returns a structured `.ok` result; its `verified` field
is the conjunction of `hash_verified` and the outcome comparison; and a
proof whose `server_seed_hash` differs from the recomputed digest text
yields `hash_verified = false` and `verified = false`. -/
theorem verifyBetProof_structured (sha : List Nat → List Nat)
    (cipher : List Nat → List Nat → List Nat → List Nat) (p : BetProof)
    (h : nonceOk p.nonce) :
    ∃ r, verifyBetProof sha cipher p = .ok r ∧
      r.verified = (r.hash_verified && r.roll_verified) ∧
      (p.server_seed_hash ≠ hashServerSeed sha p.server_seed →
        r.hash_verified = false ∧ r.verified = false) := by
  refine ⟨_, verifyBetProof_ok sha cipher p h, rfl, ?_⟩
  intro hne
  have hfalse : decide (hashServerSeed sha p.server_seed = p.server_seed_hash) = false :=
    decide_eq_false (fun hEq => hne hEq.symm)
  refine ⟨hfalse, ?_⟩
  show (decide (hashServerSeed sha p.server_seed = p.server_seed_hash) && _) = false
  rw [hfalse, Bool.false_and]

theorem verifyBetProof_structured_witness :
    ∃ r, verifyBetProof sampleHash sampleCipher mismatchProof = .ok r ∧
      r.verified = (r.hash_verified && r.roll_verified) ∧
      (mismatchProof.server_seed_hash ≠ hashServerSeed sampleHash mismatchProof.server_seed →
        r.hash_verified = false ∧ r.verified = false) :=
  verifyBetProof_structured sampleHash sampleCipher mismatchProof (by decide)

/-- **C7.** The two booleans are independent: `hash_verified` is a
function of `server_seed` and `server_seed_hash` alone, the outcome
boolean is a function of `server_seed`, `client_seed`, `nonce` and the
reported roll alone, and both mixed outcomes (hash ok with wrong roll,
hash wrong with roll ok) are realised by concrete proofs — for every
choice of the cryptographic primitives. -/
theorem verify_flags_independent (sha : List Nat → List Nat)
    (cipher : List Nat → List Nat → List Nat → List Nat) :
    (∀ p1 p2 r1 r2, verifyBetProof sha cipher p1 = .ok r1 →
      verifyBetProof sha cipher p2 = .ok r2 → p1.server_seed = p2.server_seed →
      p1.server_seed_hash = p2.server_seed_hash → r1.hash_verified = r2.hash_verified) ∧
    (∀ p1 p2 r1 r2, verifyBetProof sha cipher p1 = .ok r1 →
      verifyBetProof sha cipher p2 = .ok r2 → p1.server_seed = p2.server_seed →
      p1.client_seed = p2.client_seed → p1.nonce = p2.nonce → p1.roll = p2.roll →
      r1.roll_verified = r2.roll_verified) ∧
    (∃ p r, verifyBetProof sha cipher p = .ok r ∧ r.hash_verified = true ∧
      r.roll_verified = false) ∧
    (∃ p r, verifyBetProof sha cipher p = .ok r ∧ r.hash_verified = false ∧
      r.roll_verified = true) := by
  have hok : ∀ p r, verifyBetProof sha cipher p = .ok r → nonceOk p.nonce := by
    intro p r hv
    by_cases hn : nonceOk p.nonce
    · exact hn
    · unfold verifyBetProof at hv
      rw [computeRoll_eq_error sha cipher _ _ hn] at hv
      exact absurd hv (by simp)
  refine ⟨?_, ?_, ?_, ?_⟩
  · intro p1 p2 r1 r2 hv1 hv2 hseed hhash
    have hn1 := hok _ _ hv1
    have hn2 := hok _ _ hv2
    rw [verifyBetProof_ok sha cipher p1 hn1] at hv1
    rw [verifyBetProof_ok sha cipher p2 hn2] at hv2
    injection hv1 with hv1
    injection hv2 with hv2
    subst hv1
    subst hv2
    show decide (hashServerSeed sha p1.server_seed = p1.server_seed_hash) = _
    rw [hseed, hhash]
  · intro p1 p2 r1 r2 hv1 hv2 hseed hclient hnonce hroll
    have hn1 := hok _ _ hv1
    have hn2 := hok _ _ hv2
    rw [verifyBetProof_ok sha cipher p1 hn1] at hv1
    rw [verifyBetProof_ok sha cipher p2 hn2] at hv2
    injection hv1 with hv1
    injection hv2 with hv2
    subst hv1
    subst hv2
    show decide (roundTo6 (rollCore sha cipher (bufferFromHex p1.server_seed)
      (bufferFromHex p1.client_seed) p1.nonce.num.toNat) = roundTo6 p1.roll) = _
    rw [hseed, hclient, hnonce, hroll]
  · refine ⟨⟨"", hashServerSeed sha "", "", 0,
      rollCore sha cipher (bufferFromHex "") (bufferFromHex "") (0 : ℚ).num.toNat + 1⟩,
      _, verifyBetProof_ok sha cipher _ nonceOk_zero, ?_, ?_⟩
    · exact decide_eq_true rfl
    · exact decide_eq_false (fun h => roundTo6_ne_add_one _ h.symm)
  · refine ⟨⟨"", hashServerSeed sha "" ++ "x", "", 0,
      rollCore sha cipher (bufferFromHex "") (bufferFromHex "") (0 : ℚ).num.toNat⟩,
      _, verifyBetProof_ok sha cipher _ nonceOk_zero, ?_, ?_⟩
    · exact decide_eq_false (string_ne_append_x _)
    · exact decide_eq_true rfl

theorem verify_flags_independent_witness :
    (∃ p r, verifyBetProof sampleHash sampleCipher p = .ok r ∧ r.hash_verified = true ∧
      r.roll_verified = false) ∧
    (∃ p r, verifyBetProof sampleHash sampleCipher p = .ok r ∧ r.hash_verified = false ∧
      r.roll_verified = true) :=
  ⟨(verify_flags_independent sampleHash sampleCipher).2.2.1,
   (verify_flags_independent sampleHash sampleCipher).2.2.2⟩

/-- A proof whose supplied commitment hash is the uppercase form of the
recomputed digest text: same bytes, different hex letter case.  The
reported roll equals the recomputed outcome (1/2 under the all-zero
stand-in keystream). -/
def caseProof : BetProof :=
  ⟨"", "ABABABABABABABABABABABABABABABABABABABABABABABABABABABABABABABABABABABABABABABABABABABABABABABAB", "", 0, 1 / 2⟩

/-- **C3 counterexample.** A supplied `server_seed_hash` that denotes the
same 48 bytes as the recomputed digest but in uppercase is rejected:
`hash_verified` is `false`, so the comparison is not case-insensitive. -/
theorem hash_check_case_insensitive_cex :
    bufferFromHex caseProof.server_seed_hash = sampleHash (bufferFromHex caseProof.server_seed) ∧
    caseProof.server_seed_hash ≠ hashServerSeed sampleHash caseProof.server_seed ∧
    (verifyBetProof sampleHash sampleCipher caseProof).map VerifyResult.hash_verified =
      .ok false := by
  refine ⟨by decide, by decide, ?_⟩
  rw [verifyBetProof_ok sampleHash sampleCipher caseProof nonceOk_zero]
  simp only [Except.map]
  exact congrArg Except.ok (by decide)

/-- **C3 (amended).** The hash check is exact string equality against the
lowercase recomputed digest text: whenever the supplied
`server_seed_hash` differs from that text as a string — even when both
decode to the very same digest bytes, differing only in letter case —
`hash_verified` is `false`. -/
theorem hash_comparison_case_sensitive (sha : List Nat → List Nat)
    (cipher : List Nat → List Nat → List Nat → List Nat) (p : BetProof) (r : VerifyResult)
    (hn : nonceOk p.nonce) (hv : verifyBetProof sha cipher p = .ok r)
    (_hbytes : bufferFromHex p.server_seed_hash = sha (bufferFromHex p.server_seed))
    (hstr : p.server_seed_hash ≠ hashServerSeed sha p.server_seed) :
    r.hash_verified = false := by
  rw [verifyBetProof_ok sha cipher p hn] at hv
  injection hv with hv
  subst hv
  exact decide_eq_false (fun hEq => hstr hEq.symm)

theorem hash_comparison_case_sensitive_witness :
    ∃ r, verifyBetProof sampleHash sampleCipher caseProof = .ok r ∧ r.hash_verified = false :=
  ⟨_, verifyBetProof_ok sampleHash sampleCipher caseProof nonceOk_zero,
    hash_comparison_case_sensitive sampleHash sampleCipher caseProof _ nonceOk_zero
      (verifyBetProof_ok sampleHash sampleCipher caseProof nonceOk_zero)
      (by decide) (by decide)⟩

/-- **C4 counterexample.** `"zz00"` is not valid hex, yet neither
`computeRoll` nor `hashServerSeed` fails: both silently decode it to the
same (empty) byte sequence as `""` and succeed. -/
theorem decode_error_cex :
    decodeHexStrict "zz00".data = none ∧
    computeRoll sampleHash sampleCipher "zz00" "" 0 = .ok (1 / 2) ∧
    bufferFromHex "zz00" = bufferFromHex "" ∧
    hashServerSeed sampleHash "zz00" = hashServerSeed sampleHash "" := by
  refine ⟨by decide, ?_, by decide, by decide⟩
  rw [computeRoll_eq_ok sampleHash sampleCipher _ _ nonceOk_zero, rollCore_sampleCipher]

/-- **C4 (amended).** Hex decoding never fails: `computeRoll` succeeds on
every pair of seed strings (valid hex or not) whenever the nonce is
valid, no `decodeError` is ever produced, and malformed input is silently
truncated — everything from the first invalid byte pair on is dropped and
the valid prefix is what gets decoded. -/
theorem hex_decode_never_fails (sha : List Nat → List Nat)
    (cipher : List Nat → List Nat → List Nat → List Nat)
    (s c : String) (q : ℚ) (hq : nonceOk q)
    {l : List Char} {bs : List Nat} {d : Char} (rest : List Char)
    (hl : decodeHexStrict l = some bs) (hd : hexVal d = none) :
    (computeRoll sha cipher s c q).isOk = true ∧
    computeRoll sha cipher s c q ≠ .error .decodeError ∧
    hexPairs (l ++ d :: rest) = bs := by
  rw [computeRoll_eq_ok sha cipher _ _ hq]
  exact ⟨rfl, by simp, hexPairs_append_invalid rest hl hd⟩

theorem hex_decode_never_fails_witness :
    (computeRoll sampleHash sampleCipher "!!" "##" 0).isOk = true ∧
    computeRoll sampleHash sampleCipher "!!" "##" 0 ≠ .error .decodeError ∧
    hexPairs ("ab".data ++ 'z' :: "cd".data) = [171] :=
  hex_decode_never_fails sampleHash sampleCipher "!!" "##" 0 nonceOk_zero "cd".data
    (by decide) (by decide)

/-- **C10.** `computeRoll` and `hashServerSeed` are invariant under the
hex letter case of their seed strings: replacing any subset of hex
letters by their opposite-case forms (pointwise, by `swapHexCase`) leaves
both the derived outcome and the digest text unchanged, for every choice
of the primitives. -/
theorem hex_case_invariance (sha : List Nat → List Nat)
    (cipher : List Nat → List Nat → List Nat → List Nat)
    (s t c d : String) (q : ℚ)
    (hst : List.Forall₂ (fun a b => b = a ∨ b = swapHexCase a) s.data t.data)
    (hcd : List.Forall₂ (fun a b => b = a ∨ b = swapHexCase a) c.data d.data) :
    computeRoll sha cipher t d q = computeRoll sha cipher s c q ∧
    hashServerSeed sha t = hashServerSeed sha s := by
  have h1 : bufferFromHex t = bufferFromHex s := bufferFromHex_congr hst
  have h2 : bufferFromHex d = bufferFromHex c := bufferFromHex_congr hcd
  constructor
  · unfold computeRoll
    rw [h1, h2]
  · unfold hashServerSeed
    rw [h1]

theorem hex_case_invariance_witness :
    computeRoll sampleHash sampleCipher "Ab" "0F" 0 =
      computeRoll sampleHash sampleCipher "aB" "0f" 0 ∧
    hashServerSeed sampleHash "Ab" = hashServerSeed sampleHash "aB" :=
  hex_case_invariance sampleHash sampleCipher "aB" "Ab" "0f" "0F" 0
    (.cons (Or.inr (by decide)) (.cons (Or.inr (by decide)) .nil))
    (.cons (Or.inl (by decide)) (.cons (Or.inr (by decide)) .nil))

/-- A proof whose reported roll is the recomputed boundary outcome minus
10⁻⁸: the two values agree in their first six decimal digits but sit on
opposite sides of the rounding half-boundary. -/
def boundaryProof : BetProof :=
  ⟨"", "", "", 0, 45572222071006541 / 85899345900000000⟩

/-- Under `boundaryCipher` the XOR of the four keystream words is
131127499, so the derived outcome is 1/2 + 131127499/4294967295 =
4557222293/8589934590 ≈ 0.5305305000000006. -/
theorem rollCore_boundaryCipher (sha : List Nat → List Nat)
    (serverBytes clientBytes : List Nat) (n : Nat) :
    rollCore sha boundaryCipher serverBytes clientBytes n = 4557222293 / 8589934590 := by
  unfold rollCore boundaryCipher
  have h0 : readUInt32LE (203 :: 216 :: 208 :: 7 :: List.replicate 12 0) 0 = 131127499 := by
    decide
  have h4 : readUInt32LE (203 :: 216 :: 208 :: 7 :: List.replicate 12 0) 4 = 0 := by decide
  have h8 : readUInt32LE (203 :: 216 :: 208 :: 7 :: List.replicate 12 0) 8 = 0 := by decide
  have h12 : readUInt32LE (203 :: 216 :: 208 :: 7 :: List.replicate 12 0) 12 = 0 := by decide
  simp only [List.foldl, h0, h4, h8, h12, Nat.zero_xor, Nat.xor_zero]
  norm_num

theorem roundTo6_boundary_recalc :
    roundTo6 (4557222293 / 8589934590) = 530531 / 1000000 := by
  unfold roundTo6
  have h : round ((4557222293 : ℚ) / 8589934590 * 1000000) = 530531 := by
    rw [round_eq, Int.floor_eq_iff]
    constructor
    · norm_num
    · norm_num
  rw [h]
  norm_num

theorem roundTo6_boundary_reported :
    roundTo6 (45572222071006541 / 85899345900000000) = 530530 / 1000000 := by
  unfold roundTo6
  have h : round ((45572222071006541 : ℚ) / 85899345900000000 * 1000000) = 530530 := by
    rw [round_eq, Int.floor_eq_iff]
    constructor
    · norm_num
    · norm_num
  rw [h]
  norm_num

/-- **C6 counterexample.** The recomputed outcome 4557222293/8589934590 ≈
0.5305305000000006 and the reported outcome (that value minus 10⁻⁸) agree
in their first six decimal digits — both truncate to 0.530530 — yet the
verifier reports them unequal: they straddle the rounding half-boundary,
rounding to 0.530531 and 0.530530 respectively. -/
theorem roll_rounding_tolerance_cex :
    rollCore sampleHash boundaryCipher (bufferFromHex "") (bufferFromHex "")
      (0 : ℚ).num.toNat = 4557222293 / 8589934590 ∧
    boundaryProof.roll = 4557222293 / 8589934590 - 1 / 100000000 ∧
    Int.floor ((4557222293 : ℚ) / 8589934590 * 1000000) = 530530 ∧
    Int.floor (boundaryProof.roll * 1000000) = 530530 ∧
    (verifyBetProof sampleHash boundaryCipher boundaryProof).map VerifyResult.roll_verified =
      .ok false := by
  refine ⟨rollCore_boundaryCipher sampleHash _ _ _, by norm_num [boundaryProof], ?_, ?_, ?_⟩
  · rw [Int.floor_eq_iff]
    constructor
    · norm_num
    · norm_num
  · show Int.floor ((45572222071006541 : ℚ) / 85899345900000000 * 1000000) = 530530
    rw [Int.floor_eq_iff]
    constructor
    · norm_num
    · norm_num
  · rw [verifyBetProof_ok sampleHash boundaryCipher boundaryProof nonceOk_zero]
    simp only [Except.map]
    refine congrArg Except.ok ?_
    show decide _ = false
    rw [rollCore_boundaryCipher]
    refine decide_eq_false (fun hEq => ?_)
    rw [roundTo6_boundary_recalc] at hEq
    have hy : roundTo6 boundaryProof.roll = 530530 / 1000000 := roundTo6_boundary_reported
    rw [hy] at hEq
    norm_num at hEq

/-- **C6 (amended).** The outcome comparison is decided by rounding both
the recomputed and the reported value to six decimal digits and comparing
the rounded values exactly — never by comparing the unrounded values — so
two values that round alike compare equal, in particular the
specification's example pair 0.732199999 and 0.732200001; but two values
agreeing in their first six decimal digits can still compare unequal when
they straddle a rounding half-boundary. -/
theorem roll_comparison_after_rounding (sha : List Nat → List Nat)
    (cipher : List Nat → List Nat → List Nat → List Nat) (p : BetProof) (r : VerifyResult)
    (hn : nonceOk p.nonce) (hv : verifyBetProof sha cipher p = .ok r) :
    (r.roll_verified = true ↔
      roundTo6 (rollCore sha cipher (bufferFromHex p.server_seed) (bufferFromHex p.client_seed)
        p.nonce.num.toNat) = roundTo6 p.roll) ∧
    roundTo6 (732199999 / 1000000000) = roundTo6 (732200001 / 1000000000) := by
  constructor
  · rw [verifyBetProof_ok sha cipher p hn] at hv
    injection hv with hv
    subst hv
    show decide _ = true ↔ _
    exact ⟨of_decide_eq_true, decide_eq_true⟩
  · have h1 : round ((732199999 : ℚ) / 1000000000 * 1000000) = 732200 := by
      rw [round_eq, Int.floor_eq_iff]
      constructor
      · norm_num
      · norm_num
    have h2 : round ((732200001 : ℚ) / 1000000000 * 1000000) = 732200 := by
      rw [round_eq, Int.floor_eq_iff]
      constructor
      · norm_num
      · norm_num
    unfold roundTo6
    rw [h1, h2]

theorem roll_comparison_after_rounding_witness :
    roundTo6 (732199999 / 1000000000) = roundTo6 (732200001 / 1000000000) :=
  (roll_comparison_after_rounding sampleHash sampleCipher mismatchProof _ nonceOk_zero
    (verifyBetProof_ok sampleHash sampleCipher mismatchProof nonceOk_zero)).2
